import Mathlib

/-!
Verification of the si_units unit-algebra core (src/siunits/main.py).

The Python code is shallowly embedded as executable Lean definitions:

* `BaseUnit`, `Assoc`, `DerivedUnit`, `Composite` mirror the four dataclasses.
* Python `dict` values keyed by `BaseUnit` (whose `__hash__`/`__eq__` use only
  the `id` field) are modelled as insertion-ordered association lists
  `UnitMap = List (BaseUnit × Int)` with lookup by `id`.  All dictionaries in
  the source are built by repeated `d[k] = v` assignments starting from an
  empty dict, so keys are unique; `mapSet` implements exactly that
  replace-first-or-append semantics.
* Python numbers (`int` and `float`) are modelled by `Rat`.  Every branch of
  the source that distinguishes `int` from `float` treats the two identically
  (e.g. `other == 1` and `other == 1.0` in `DerivedUnit.__eq__`), so a single
  numeric type is faithful for the properties considered here.
* `raise` sites are modelled with `Except PyError`.  The constructor names
  follow the specification's error taxonomy; each one corresponds to a
  concrete `raise` statement (or attribute error) in the source.
-/

structure BaseUnit where
  id : Int
  _name : String
  abbr : String
  quantity : String
deriving DecidableEq, Repr

/-- Assoc pairs a base unit with its integer power (class `Assoc` in the source). -/
structure Assoc where
  unit : BaseUnit
  power : Int
deriving DecidableEq, Repr

/-- DerivedUnit record: name tokens, abbreviation, canonical signature, quantity. -/
structure DerivedUnit where
  _name_tokens : List (String × Int)
  abbr : String
  base_units : List Assoc
  quantity : String
deriving DecidableEq, Repr

/-- A unit operand: either a `BaseUnit` or a `DerivedUnit`. -/
inductive UnitKind where
  | base : BaseUnit → UnitKind
  | derived : DerivedUnit → UnitKind
deriving DecidableEq, Repr

/-- Composite pairs a numeric coefficient with a unit (class `Composite`). -/
structure Composite where
  coef : Rat
  unit : UnitKind
deriving DecidableEq, Repr

/-- An operand value of the Python algebra: unit, composite or plain number. -/
inductive PyVal where
  | base : BaseUnit → PyVal
  | derived : DerivedUnit → PyVal
  | comp : Composite → PyVal
  | num : Rat → PyVal
deriving DecidableEq, Repr

/-- Errors raised by the source, named after the specification's taxonomy.
`incompatibleUnits` models the `TypeError` raised for additive mismatch,
`notImplementedRaised` the `raise NotImplemented(...)` sites,
`unsupportedOperand` the `TypeError` for a foreign operand type, and
`attributeError` the `AttributeError` from accessing `base_units` on a
value that lacks it. -/
inductive PyError where
  | incompatibleUnits : String → PyError
  | unsupportedOperand : String → PyError
  | notImplementedRaised : String → PyError
  | attributeError : String → PyError
deriving DecidableEq, Repr

/-- Result of `_mul_helper` and of the `*` and `/` operators. -/
inductive OpResult where
  | derived : DerivedUnit → OpResult
  | comp : Composite → OpResult
deriving DecidableEq, Repr

/-- Python dict keyed by `BaseUnit` (hash and equality use only `id`). -/
abbrev UnitMap := List (BaseUnit × Int)

/-- Membership test `u in d.keys()`: some key has the same `id`. -/
def mapContains : UnitMap → BaseUnit → Bool
  | [], _ => false
  | p :: rest, u => p.1.id == u.id || mapContains rest u

/-- Lookup `d[key]` by id, defaulting to 0 (keys are unique in all maps the
source builds, so the first match is the entry). -/
def mapGetI : UnitMap → Int → Int
  | [], _ => 0
  | p :: rest, i => if p.1.id = i then p.2 else mapGetI rest i

/-- Assignment `d[u] = v`: replace the value at an existing key (keeping the
original key object and position, as Python dicts do) or append a new entry. -/
def mapSet : UnitMap → BaseUnit → Int → UnitMap
  | [], u, v => [(u, v)]
  | p :: rest, u, v =>
      if p.1.id = u.id then (p.1, v) :: rest else p :: mapSet rest u v

/-- Python dict equality: same keys (by id) with equal values, order ignored. -/
def mapEquiv (m1 m2 : UnitMap) : Bool :=
  m1.all (fun p => mapContains m2 p.1 && (mapGetI m2 p.1.id == p.2)) &&
  m2.all (fun p => mapContains m1 p.1 && (mapGetI m1 p.1.id == p.2))

/-- One step of the loop in `_to_unit_map`: a repeated unit gets `+ 1` added
to its entry (exactly as the source's `result[u.unit] += 1` does), a new unit
is inserted with its power. -/
def insAssocStep (m : UnitMap) (u : Assoc) : UnitMap :=
  if mapContains m u.unit then mapSet m u.unit (mapGetI m u.unit.id + 1)
  else mapSet m u.unit u.power

/-- `_to_unit_map`: dedupe a list of Assoc into a dict, then drop zero values. -/
def toUnitMap (units : List Assoc) : UnitMap :=
  (units.foldl insAssocStep []).filter (fun p => p.2 != 0)

/-- Convert dict entries back to `Assoc` values (`Assoc(k_, v_) for k_, v_ in ...`). -/
def toAssocs (m : UnitMap) : List Assoc :=
  m.map (fun p => Assoc.mk p.1 p.2)

/-- Superscript glyph for one character of `str(power)` (the `chars` table). -/
def superChar (c : Char) : Char :=
  if c = '-' then '⁻'
  else if c = '0' then '⁰'
  else if c = '1' then '¹'
  else if c = '2' then '²'
  else if c = '3' then '³'
  else if c = '4' then '⁴'
  else if c = '5' then '⁵'
  else if c = '6' then '⁶'
  else if c = '7' then '⁷'
  else if c = '8' then '⁸'
  else '⁹'

/-- The character-dropping loop of `_power_text`: a `¹` is skipped when it is
first or its predecessor in the original string is not `⁻`.  The first
argument is the previous character of the original string (`none` at index 0). -/
def omitFirstPower : Option Char → List Char → List Char
  | _, [] => []
  | prev, c :: rest =>
      if c = '¹' ∧ (prev = none ∨ prev ≠ some '⁻') then omitFirstPower (some c) rest
      else c :: omitFirstPower (some c) rest

/-- `_power_text`: superscript rendering of an integer exponent. -/
def powerText (power : Int) : String :=
  String.mk (omitFirstPower none ((toString power).data.map superChar))

/-- `_base_description`: abbreviation string rebuilt from the signature. -/
def baseDescription (units : List Assoc) : String :=
  String.intercalate "·" ((toUnitMap units).map (fun p => p.1.abbr ++ powerText p.2))

/-- `DerivedUnit.__init__`: store the name as a single token of power 1 and
consolidate the `(BaseUnit, power)` list through `_to_unit_map`. -/
def DerivedUnit.mkP (name abbr : String) (base_units : List (BaseUnit × Int))
    (quantity : String) : DerivedUnit :=
  { _name_tokens := [(name, 1)]
    abbr := abbr
    base_units := toAssocs (toUnitMap (base_units.map (fun b => Assoc.mk b.1 b.2)))
    quantity := quantity }

/-- The `result_map` aggregation inside `DerivedUnit.name`: a `defaultdict`
summing powers of repeated names, preserving first-seen order (entries whose
sum is 0 stay in the map). -/
def aggTokens (toks : List (String × Int)) : List (String × Int) :=
  toks.foldl
    (fun m t =>
      if m.any (fun p => p.1 == t.1) then
        m.map (fun p => if p.1 == t.1 then (p.1, p.2 + t.2) else p)
      else m ++ [t]) []

/-- `DerivedUnit.name()`: render the aggregated name tokens joined by `·`. -/
def DerivedUnit.name (d : DerivedUnit) : String :=
  String.intercalate "·" ((aggTokens d._name_tokens).map (fun p => p.1 ++ powerText p.2))

def UnitKind.quantity : UnitKind → String
  | .base b => b.quantity
  | .derived d => d.quantity

/-- The initial exponent map passed to `_mul_helper`: `{self: 1}` for a
`BaseUnit`, `_to_unit_map(self.base_units)` for a `DerivedUnit`. -/
def UnitKind.initMap : UnitKind → UnitMap
  | .base b => [(b, 1)]
  | .derived d => toUnitMap d.base_units

def opAdd (a b : Int) : Int := a + b

def opSub (a b : Int) : Int := a - b

/-- `_mul_helper`'s BaseUnit branch: combine the right operand's implicit
power 1 into the map, or insert `±1` depending on the operator symbol. -/
def combineBase (init : UnitMap) (b : BaseUnit) (op : Int → Int → Int)
    (symbol : String) : UnitMap :=
  if mapContains init b then mapSet init b (op (mapGetI init b.id) 1)
  else mapSet init b (if symbol = "/" then -1 else 1)

/-- One iteration of `_mul_helper`'s DerivedUnit loop for entry `u`. -/
def derivedStep (op : Int → Int → Int) (symbol : String) (m : UnitMap)
    (u : Assoc) : UnitMap :=
  if mapContains m u.unit then mapSet m u.unit (op (mapGetI m u.unit.id) u.power)
  else mapSet m u.unit (if symbol = "/" then -u.power else u.power)

/-- `_mul_helper`'s DerivedUnit branch: fold every signature entry into the map. -/
def combineDerived (init : UnitMap) (d : DerivedUnit) (op : Int → Int → Int)
    (symbol : String) : UnitMap :=
  d.base_units.foldl (derivedStep op symbol) init

/-- The exponent map produced by `_mul_helper` for a unit right operand. -/
def combinedMap (init : UnitMap) (other : UnitKind) (op : Int → Int → Int)
    (symbol : String) : UnitMap :=
  match other with
  | .base b => combineBase init b op symbol
  | .derived d => combineDerived init d op symbol

/-- `_mul_helper` restricted to unit operands (the only case that builds a
`DerivedUnit`): merge the maps, detect the all-zero case, otherwise construct
the result and overwrite its `_name_tokens` with the concatenated history. -/
def mulHelperUnits (self other : UnitKind) (init_map : UnitMap)
    (op : Int → Int → Int) (symbol : String) : DerivedUnit :=
  let unit_map := combinedMap init_map other op symbol
  if (unit_map.filter (fun p => p.2 != 0)).length = 0 then
    DerivedUnit.mkP "𝟙" "" [] "𝟙"
  else
    let result := DerivedUnit.mkP "" (baseDescription (toAssocs unit_map)) unit_map
      (self.quantity ++ " " ++ symbol ++ " " ++ other.quantity)
    let self_tokens : List (String × Int) :=
      match self with
      | .base b => [(b._name, 1)]
      | .derived d => d._name_tokens
    let other_tokens : List (String × Int) :=
      match other with
      | .base b => [(b._name, if symbol = "/" then -1 else 1)]
      | .derived d =>
          d._name_tokens.map (fun t => (t.1, (if symbol = "/" then (-1 : Int) else 1) * t.2))
    { result with
        _name_tokens := (self_tokens ++ other_tokens).filter (fun t => t.1 != "𝟙") }

/-- `a * b` for unit operands: `__mul__` of either unit type. -/
def unitMul (a b : UnitKind) : DerivedUnit :=
  mulHelperUnits a b a.initMap opAdd "·"

/-- `a / b` for unit operands (the non-Composite branch of `__truediv__`). -/
def unitDiv (a b : UnitKind) : DerivedUnit :=
  mulHelperUnits a b a.initMap opSub "/"

/-- The dimensionless sentinel `DerivedUnit("𝟙", "", [], "𝟙")`. -/
def dimensionlessUnit : DerivedUnit := DerivedUnit.mkP "𝟙" "" [] "𝟙"

/-- The loop of `_pow`: apply `* unit` or `/ unit` to the accumulator. -/
def powLoop (u : UnitKind) (pos : Bool) : Nat → DerivedUnit → DerivedUnit
  | 0, r => r
  | n + 1, r => powLoop u pos n (if pos then unitMul (.derived r) u else unitDiv (.derived r) u)

/-- `_pow(unit, power)` for a unit operand: start from the dimensionless unit
and multiply (`power > 0`) or divide (`power < 0`) `abs(power)` times. -/
def powUnit (u : UnitKind) (power : Int) : DerivedUnit :=
  powLoop u (decide (power > 0)) power.natAbs dimensionlessUnit

/-- `Composite.__mul__` with a unit right operand: keep the coefficient,
multiply the unit. -/
def compositeMulUnit (c : Composite) (u : UnitKind) : Composite :=
  Composite.mk c.coef (.derived (unitMul c.unit u))

/-- `_mul_helper` in full generality over the right operand. -/
def mulHelper (self : UnitKind) (other : PyVal) (init_map : UnitMap)
    (op : Int → Int → Int) (symbol : String) : Except PyError OpResult :=
  match other with
  | .base b => .ok (.derived (mulHelperUnits self (.base b) init_map op symbol))
  | .derived d => .ok (.derived (mulHelperUnits self (.derived d) init_map op symbol))
  | .comp c =>
      if symbol = "/" then
        .error (.notImplementedRaised "Division not implemented between types")
      else .ok (.comp (compositeMulUnit c self))
  | .num n =>
      if symbol = "/" then .ok (.comp (Composite.mk (1 / n) self))
      else .ok (.comp (Composite.mk n self))

/-- `BaseUnit.__mul__`. -/
def baseMul (self : BaseUnit) (other : PyVal) : Except PyError OpResult :=
  mulHelper (.base self) other [(self, 1)] opAdd "·"

/-- `BaseUnit.__truediv__`: a Composite right operand is handled directly as
`Composite(1/other.coef, self * other.unit ** -1)`; everything else goes
through `_mul_helper` with subtraction. -/
def baseTruediv (self : BaseUnit) (other : PyVal) : Except PyError OpResult :=
  match other with
  | .comp c =>
      .ok (.comp (Composite.mk (1 / c.coef)
        (.derived (unitMul (.base self) (.derived (powUnit c.unit (-1)))))))
  | o => mulHelper (.base self) o [(self, 1)] opSub "/"

/-- `DerivedUnit.__mul__`. -/
def derivedMul (self : DerivedUnit) (other : PyVal) : Except PyError OpResult :=
  mulHelper (.derived self) other (toUnitMap self.base_units) opAdd "·"

/-- `DerivedUnit.__truediv__`: a Composite right operand is handled directly as
`Composite(1/other.coef, self / other.unit)`. -/
def derivedTruediv (self : DerivedUnit) (other : PyVal) : Except PyError OpResult :=
  match other with
  | .comp c =>
      .ok (.comp (Composite.mk (1 / c.coef) (.derived (unitDiv (.derived self) c.unit))))
  | o => mulHelper (.derived self) o (toUnitMap self.base_units) opSub "/"

/-- `Assoc.__eq__` as generated by dataclass: fields compared with the units'
own equality, which for `BaseUnit` is identity of `id`. -/
def assocBeq (a b : Assoc) : Bool :=
  a.unit.id == b.unit.id && a.power == b.power

def listAssocBeq : List Assoc → List Assoc → Bool
  | [], [] => true
  | a :: as_, b :: bs => assocBeq a b && listAssocBeq as_ bs
  | _, _ => false

/-- `BaseUnit.__eq__`: `False` for falsy operands, id comparison against a
BaseUnit, signature comparison `other.base_units == [Assoc(self, 1)]` against
a DerivedUnit, error otherwise. -/
def baseEq (self : BaseUnit) (other : PyVal) : Except PyError Bool :=
  match other with
  | .num n =>
      if n = 0 then .ok false
      else .error (.notImplementedRaised "Can only compare BaseUnit to another BaseUnit, or DerivedUnit")
  | .base b => .ok (self.id == b.id)
  | .derived d => .ok (listAssocBeq d.base_units [Assoc.mk self 1])
  | .comp _ => .error (.notImplementedRaised "Can only compare BaseUnit to another BaseUnit, or DerivedUnit")

/-- `DerivedUnit.__eq__`: the special number branches return `True` exactly
when the number equals 1 (int or float), regardless of the signature; two
DerivedUnits compare by deduplicated signature; a BaseUnit or Composite
operand hits the `other.base_units` attribute access and fails. -/
def derivedEq (self : DerivedUnit) (other : PyVal) : Except PyError Bool :=
  match other with
  | .num n => .ok (if n = 1 then true else false)
  | .derived d => .ok (mapEquiv (toUnitMap self.base_units) (toUnitMap d.base_units))
  | .base _ => .error (.attributeError "BaseUnit object has no attribute base_units")
  | .comp _ => .error (.attributeError "Composite object has no attribute base_units")

def UnitKind.toVal : UnitKind → PyVal
  | .base b => .base b
  | .derived d => .derived d

/-- `self.unit == other` dispatched on the kind of `self.unit`. -/
def unitEqU (a : UnitKind) (b : UnitKind) : Except PyError Bool :=
  match a with
  | .base s => baseEq s b.toVal
  | .derived s => derivedEq s b.toVal

/-- `Composite.__eq__`: a bare number is compared against the coefficient
only; another Composite must match on coefficient and unit; a DerivedUnit
requires coefficient 1 and matching unit. -/
def compositeEq (self : Composite) (other : PyVal) : Except PyError Bool :=
  match other with
  | .num n => .ok (decide (self.coef = n))
  | .comp c => if self.coef = c.coef then unitEqU self.unit c.unit else .ok false
  | .derived d => if self.coef = 1 then unitEqU self.unit (.derived d) else .ok false
  | .base _ => .error (.notImplementedRaised "Equality not implemented between types")

/-- `BaseUnit.__add__`: scalar gives `Composite(1 + other, self)`, an
identical BaseUnit gives `Composite(2, self)`, a different one raises the
incompatible-units `TypeError`, any other type raises. -/
def baseAdd (self : BaseUnit) (other : PyVal) : Except PyError Composite :=
  match other with
  | .num n => .ok (Composite.mk (1 + n) (.base self))
  | .base b =>
      if self.id = b.id then .ok (Composite.mk 2 (.base self))
      else .error (.incompatibleUnits "Addition: the BaseUnits must be identical!")
  | _ => .error (.notImplementedRaised "Addition not implemented between types")

/-- `BaseUnit.__sub__`: scalar gives `Composite(1 - other, self)`, an
identical BaseUnit gives `Composite(0, self)`, a different one raises. -/
def baseSub (self : BaseUnit) (other : PyVal) : Except PyError Composite :=
  match other with
  | .num n => .ok (Composite.mk (1 - n) (.base self))
  | .base b =>
      if self.id = b.id then .ok (Composite.mk 0 (.base self))
      else .error (.incompatibleUnits "Subtraction: the BaseUnits must be identical!")
  | _ => .error (.notImplementedRaised "Subtraction not implemented between types")

/-- Discriminator for error results of `*` and `/`. -/
def opResultIsError : Except PyError OpResult → Bool
  | .error _ => true
  | .ok _ => false

/-- The meter unit of the specification's scenarios. -/
def meter : BaseUnit := { id := 1, _name := "meter", abbr := "m", quantity := "length" }

/-- The second unit of the specification's scenarios. -/
def second : BaseUnit := { id := 2, _name := "second", abbr := "s", quantity := "time" }

/-- `meter / second`. -/
def meterPerSecond : DerivedUnit := unitDiv (.base meter) (.base second)

/-- The unit `meter` re-entered through the DerivedUnit constructor. -/
def meterAsDerived : DerivedUnit := DerivedUnit.mkP "meter" "m" [(meter, 1)] "length"

/-- `(meter ** -1) ** -1`. -/
def meterInvInv : DerivedUnit := powUnit (.derived (powUnit (.base meter) (-1))) (-1)

/-- `(meter * second) / meter`. -/
def meterSecondOverMeter : DerivedUnit :=
  unitDiv (.derived (unitMul (.base meter) (.base second))) (.base meter)

/-- Claim C1, code evaluation at the failing input: `_to_unit_map` merges a
repeated base unit by adding 1 to the stored exponent instead of adding the
entry's own exponent, so `[(meter, 2), (meter, 2)]` consolidates to
`{meter: 3}` rather than the sum `{meter: 4}` the dedup contract requires. -/
theorem C1_to_unit_map_adds_one :
    toUnitMap [Assoc.mk meter 2, Assoc.mk meter 2] = [(meter, 3)] ∧
    toUnitMap [Assoc.mk meter 2, Assoc.mk meter 2] ≠ [(meter, 4)] :=
  ⟨rfl, by decide⟩

/-- Claim C2, counterexample: a DerivedUnit with the non-empty signature
`{meter: 1}` still compares equal to the number 1, so equality with 1 does
not require an empty signature. -/
theorem C2_counterexample :
    derivedEq meterAsDerived (.num 1) = .ok true ∧ meterAsDerived.base_units ≠ [] :=
  ⟨rfl, by decide⟩

/-- Claim C2 as amended: comparing any DerivedUnit with a bare number returns
true exactly when the number equals 1 (covering Python's `int 1` and
`float 1.0`), regardless of the unit's signature. -/
theorem C2_eq_number (d : DerivedUnit) (n : Rat) :
    derivedEq d (.num n) = .ok true ↔ n = 1 := by
  by_cases h : n = 1 <;> simp [derivedEq, h]

/-- Claim C3, counterexample: `Composite(5, meter)` compares equal to the bare
number 5 although its unit is the base unit meter, whose canonical signature
`{meter: 1}` is not empty. -/
theorem C3_counterexample :
    compositeEq (Composite.mk 5 (.base meter)) (.num 5) = .ok true := rfl

/-- Claim C3 as amended: a Composite compares equal to a bare number exactly
when its coefficient equals that number; the unit is ignored entirely. -/
theorem C3_eq_number (c : Composite) (n : Rat) :
    compositeEq c (.num n) = .ok true ↔ c.coef = n := by
  simp [compositeEq]

/-- Claim C4, counterexample: dividing the base unit meter, or the derived
unit meter/second, by the Composite `2·second` returns a result instead of
signalling an error. -/
theorem C4_counterexample :
    opResultIsError (baseTruediv meter (.comp (Composite.mk 2 (.base second)))) = false ∧
    opResultIsError (derivedTruediv meterPerSecond (.comp (Composite.mk 2 (.base second)))) = false :=
  ⟨rfl, rfl⟩

/-- Claim C4 as amended: `__truediv__` of both unit types intercepts a
Composite right operand before `_mul_helper` is reached and returns
`Composite(1/c.coef, self * c.unit ** -1)` (BaseUnit) respectively
`Composite(1/c.coef, self / c.unit)` (DerivedUnit); no error is signalled. -/
theorem C4_div_by_composite (b : BaseUnit) (d : DerivedUnit) (c : Composite) :
    baseTruediv b (.comp c) =
      .ok (.comp (Composite.mk (1 / c.coef)
        (.derived (unitMul (.base b) (.derived (powUnit c.unit (-1))))))) ∧
    derivedTruediv d (.comp c) =
      .ok (.comp (Composite.mk (1 / c.coef) (.derived (unitDiv (.derived d) c.unit)))) :=
  ⟨rfl, rfl⟩

/-- Claim C5, counterexample: the abbreviation of `meter / second` is not
`"m/s"` (the code rebuilds it from the signature as `"m·s⁻¹"`). -/
theorem C5_counterexample : meterPerSecond.abbr ≠ "m/s" := by decide

/-- Claim C5 as amended: `meter / second` yields the signature
`{meter: 1, second: -1}`, the abbreviation `"m·s⁻¹"` and the name
`"meter·second⁻¹"`. -/
theorem C5_velocity_scenario :
    meterPerSecond.base_units = [Assoc.mk meter 1, Assoc.mk second (-1)] ∧
    meterPerSecond.abbr = "m·s⁻¹" ∧
    meterPerSecond.name = "meter·second⁻¹" :=
  ⟨rfl, rfl, rfl⟩

/-- Claim C6, code evaluation: the formatter's claimed examples for 1 and -2
hold, but the dropping loop removes every superscript-one digit that is not
preceded by the superscript minus, so 11 formats as the empty string and 10
formats as a bare superscript zero, contradicting the claim that the glyph is
omitted exactly when the exponent is 1. -/
theorem C6_power_text_eval :
    powerText 1 = "" ∧ powerText (-2) = "⁻²" ∧ powerText 11 = "" ∧ powerText 10 = "⁰" :=
  ⟨rfl, rfl, rfl, rfl⟩

/-- Claim C7: additive operators on base units — `a + a` gives coefficient 2,
`a - a` gives 0, a scalar shifts the coefficient to `1 ± s`, and two distinct
base units raise the incompatible-units error for both `+` and `-`. -/
theorem C7_base_add_sub (a b : BaseUnit) (s : Rat) (h : a.id ≠ b.id) :
    baseAdd a (.base a) = .ok (Composite.mk 2 (.base a)) ∧
    baseSub a (.base a) = .ok (Composite.mk 0 (.base a)) ∧
    baseAdd a (.num s) = .ok (Composite.mk (1 + s) (.base a)) ∧
    baseSub a (.num s) = .ok (Composite.mk (1 - s) (.base a)) ∧
    baseAdd a (.base b) = .error (.incompatibleUnits "Addition: the BaseUnits must be identical!") ∧
    baseSub a (.base b) = .error (.incompatibleUnits "Subtraction: the BaseUnits must be identical!") := by
  refine ⟨?_, ?_, rfl, rfl, ?_, ?_⟩ <;> simp [baseAdd, baseSub, h]

/-- Claim C7, witness at meter, second and the scalar 5. -/
theorem C7_witness :
    meter.id ≠ second.id ∧
    (baseAdd meter (.base meter) = .ok (Composite.mk 2 (.base meter)) ∧
     baseSub meter (.base meter) = .ok (Composite.mk 0 (.base meter)) ∧
     baseAdd meter (.num 5) = .ok (Composite.mk (1 + 5) (.base meter)) ∧
     baseSub meter (.num 5) = .ok (Composite.mk (1 - 5) (.base meter)) ∧
     baseAdd meter (.base second) = .error (.incompatibleUnits "Addition: the BaseUnits must be identical!") ∧
     baseSub meter (.base second) = .error (.incompatibleUnits "Subtraction: the BaseUnits must be identical!")) :=
  ⟨by decide, C7_base_add_sub meter second 5 (by decide)⟩

/-- Claim C8: `(meter ** -1) ** -1` has canonical signature `{meter: 1}` and
compares equal to meter via `BaseUnit.__eq__`. -/
theorem C8_double_inverse :
    meterInvInv.base_units = [Assoc.mk meter 1] ∧
    baseEq meter (.derived meterInvInv) = .ok true :=
  ⟨rfl, rfl⟩

/-- Claim C10: the name of `(meter * second) / meter` renders the aggregated
meter token with a superscript zero, `"meter⁰·second"`, although the stored
canonical signature `{second: 1}` contains no zero-exponent entry. -/
theorem C10_zero_exponent_token :
    meterSecondOverMeter.name = "meter⁰·second" ∧
    '⁰' ∈ meterSecondOverMeter.name.data ∧
    meterSecondOverMeter.base_units = [Assoc.mk second 1] :=
  ⟨rfl, by decide, rfl⟩

def keyIds (m : UnitMap) : List Int := m.map (fun p => p.1.id)

/-- Keys are pairwise distinct (true of every dict the source builds). -/
def KeysNodup (m : UnitMap) : Prop := (keyIds m).Nodup

/-- Total exponent a list of associations assigns to the base-unit id `i`. -/
def sumPow : List Assoc → Int → Int
  | [], _ => 0
  | u :: l, i => (if u.unit.id = i then u.power else 0) + sumPow l i

def assocIds (l : List Assoc) : List Int := l.map (fun a => a.unit.id)

def UnitKind.sigIds : UnitKind → List Int
  | .base b => [b.id]
  | .derived d => assocIds d.base_units

/-- The DerivedUnit invariant of the specification: signature entries are
deduplicated by base-unit identity (trivially true of a BaseUnit operand). -/
def UnitKind.sigNodup (u : UnitKind) : Prop := u.sigIds.Nodup

instance (u : UnitKind) : Decidable u.sigNodup := by
  unfold UnitKind.sigNodup; exact List.nodupDecidable _

/-- Exponent that a unit operand contributes at base-unit id `i`. -/
def UnitKind.sigAt : UnitKind → Int → Int
  | .base b, i => if b.id = i then 1 else 0
  | .derived d, i => sumPow d.base_units i

theorem mapGetI_mapSet (m : UnitMap) (u : BaseUnit) (v : Int) (i : Int) :
    mapGetI (mapSet m u v) i = if u.id = i then v else mapGetI m i := by
  induction m with
  | nil => simp [mapSet, mapGetI]
  | cons p rest ih =>
    by_cases hpu : p.1.id = u.id
    · simp only [mapSet, if_pos hpu]
      by_cases hi : u.id = i
      · have hpi : p.1.id = i := hpu.trans hi
        simp [mapGetI, hpi, hi]
      · have hpi : ¬ p.1.id = i := fun h => hi (hpu.symm.trans h)
        simp [mapGetI, hpi, hi]
    · simp only [mapSet, if_neg hpu, mapGetI, ih]
      by_cases hi : u.id = i
      · have hpi : ¬ p.1.id = i := fun h => hpu (h.trans hi.symm)
        simp [hpi, hi]
      · simp [hi]

theorem mapContains_iff (m : UnitMap) (u : BaseUnit) :
    mapContains m u = true ↔ u.id ∈ keyIds m := by
  induction m with
  | nil => simp [mapContains, keyIds]
  | cons p rest ih =>
    simp only [mapContains, keyIds, List.map_cons, List.mem_cons,
      Bool.or_eq_true, beq_iff_eq, ih]
    constructor
    · rintro (h | h)
      · exact Or.inl h.symm
      · exact Or.inr h
    · rintro (h | h)
      · exact Or.inl h.symm
      · exact Or.inr h

theorem mapContains_eq_false_iff (m : UnitMap) (u : BaseUnit) :
    mapContains m u = false ↔ u.id ∉ keyIds m := by
  rw [← mapContains_iff]
  cases mapContains m u <;> simp

theorem mapGetI_eq_zero_of_not_mem (m : UnitMap) (i : Int) (h : i ∉ keyIds m) :
    mapGetI m i = 0 := by
  induction m with
  | nil => rfl
  | cons p rest ih =>
    rw [keyIds, List.map_cons] at h
    have h1 : ¬ p.1.id = i := fun hh => h (by rw [← hh]; exact List.mem_cons_self _ _)
    have h2 : i ∉ keyIds rest := fun hh => h (List.mem_cons_of_mem _ hh)
    simp only [mapGetI, if_neg h1]
    exact ih h2

theorem mapGetI_eq_zero_of_not_contains (m : UnitMap) (u : BaseUnit)
    (h : mapContains m u = false) : mapGetI m u.id = 0 :=
  mapGetI_eq_zero_of_not_mem m u.id ((mapContains_eq_false_iff m u).mp h)

theorem keyIds_mapSet (m : UnitMap) (u : BaseUnit) (v : Int) :
    keyIds (mapSet m u v) =
      if mapContains m u then keyIds m else keyIds m ++ [u.id] := by
  induction m with
  | nil => simp [mapSet, mapContains, keyIds]
  | cons p rest ih =>
    by_cases hpu : p.1.id = u.id
    · simp [mapSet, hpu, mapContains, keyIds]
    · simp only [mapSet, if_neg hpu, mapContains, keyIds, List.map_cons,
        Bool.or_eq_true, beq_iff_eq]
      by_cases hc : mapContains rest u = true
      · simp only [keyIds] at ih
        simp [hpu, hc, ih]
      · rw [Bool.not_eq_true] at hc
        simp only [keyIds] at ih
        simp [hpu, hc, ih]

theorem keysNodup_mapSet (m : UnitMap) (u : BaseUnit) (v : Int) (h : KeysNodup m) :
    KeysNodup (mapSet m u v) := by
  unfold KeysNodup
  rw [keyIds_mapSet]
  by_cases hc : mapContains m u = true
  · simpa [hc] using h
  · rw [Bool.not_eq_true] at hc
    simp only [hc, Bool.false_eq_true, if_false]
    refine List.Nodup.append h (List.nodup_singleton _) ?_
    intro x hx hy
    simp only [List.mem_singleton] at hy
    subst hy
    exact (mapContains_eq_false_iff m u).mp hc hx

theorem keysNodup_insAssocStep (m : UnitMap) (u : Assoc) (h : KeysNodup m) :
    KeysNodup (insAssocStep m u) := by
  unfold insAssocStep
  split <;> exact keysNodup_mapSet _ _ _ h

theorem keysNodup_foldl_ins (l : List Assoc) (m : UnitMap) (h : KeysNodup m) :
    KeysNodup (l.foldl insAssocStep m) := by
  induction l generalizing m with
  | nil => exact h
  | cons u l ih => exact ih _ (keysNodup_insAssocStep m u h)

theorem keysNodup_filter (m : UnitMap) (q : BaseUnit × Int → Bool) (h : KeysNodup m) :
    KeysNodup (m.filter q) :=
  List.Nodup.sublist ((List.filter_sublist m).map _) h

theorem keysNodup_toUnitMap (l : List Assoc) : KeysNodup (toUnitMap l) :=
  keysNodup_filter _ _ (keysNodup_foldl_ins l [] (by simp [KeysNodup, keyIds]))

theorem toUnitMap_values_ne_zero (l : List Assoc) (p : BaseUnit × Int)
    (hp : p ∈ toUnitMap l) : p.2 ≠ 0 := by
  unfold toUnitMap at hp
  simpa using List.of_mem_filter hp

theorem mapGetI_of_mem (m : UnitMap) (h : KeysNodup m) (p : BaseUnit × Int)
    (hp : p ∈ m) : mapGetI m p.1.id = p.2 := by
  induction m with
  | nil => cases hp
  | cons q rest ih =>
    rw [KeysNodup, keyIds, List.map_cons, List.nodup_cons] at h
    rcases List.mem_cons.mp hp with h1 | h1
    · subst h1; simp [mapGetI]
    · have hq : ¬ q.1.id = p.1.id := by
        intro he
        exact h.1 (he ▸ List.mem_map_of_mem (fun a => a.1.id) h1)
      simp only [mapGetI, if_neg hq]
      exact ih h.2 h1

theorem mapSet_append (m : UnitMap) (u : BaseUnit) (v : Int)
    (h : mapContains m u = false) : mapSet m u v = m ++ [(u, v)] := by
  induction m with
  | nil => rfl
  | cons p rest ih =>
    simp only [mapContains, Bool.or_eq_false_iff, beq_eq_false_iff_ne, ne_eq] at h
    simp only [mapSet, if_neg h.1, List.cons_append, List.cons.injEq, true_and]
    exact ih h.2

theorem mapGetI_filter_ne_zero (m : UnitMap) (h : KeysNodup m) (i : Int) :
    mapGetI (m.filter (fun p => p.2 != 0)) i = mapGetI m i := by
  induction m with
  | nil => rfl
  | cons p rest ih =>
    rw [KeysNodup, keyIds, List.map_cons, List.nodup_cons] at h
    by_cases hz : p.2 = 0
    · have hf : (p :: rest).filter (fun p => p.2 != 0) = rest.filter (fun p => p.2 != 0) := by
        simp [List.filter_cons, hz]
      rw [hf, ih h.2]
      by_cases hp : p.1.id = i
      · have hrest : mapGetI rest i = 0 :=
          mapGetI_eq_zero_of_not_mem rest i (by rw [← hp]; exact h.1)
        simp [mapGetI, hp, hz, hrest]
      · simp [mapGetI, hp]
    · have hf : (p :: rest).filter (fun p => p.2 != 0) = p :: rest.filter (fun p => p.2 != 0) := by
        simp [List.filter_cons, hz]
      rw [hf]
      by_cases hp : p.1.id = i
      · simp [mapGetI, hp]
      · simp [mapGetI, hp, ih h.2]

theorem mapGetI_foldl_ins (l : List Assoc) (m : UnitMap)
    (hnd : (assocIds l).Nodup)
    (hdis : ∀ u ∈ l, mapContains m u.unit = false) (i : Int) :
    mapGetI (l.foldl insAssocStep m) i = mapGetI m i + sumPow l i := by
  induction l generalizing m with
  | nil => simp [sumPow]
  | cons u l ih =>
    rw [assocIds, List.map_cons, List.nodup_cons] at hnd
    have hc : mapContains m u.unit = false := hdis u (List.mem_cons_self _ _)
    have hstep : insAssocStep m u = mapSet m u.unit u.power := by
      unfold insAssocStep
      rw [if_neg (by simp [hc])]
    have hdis' : ∀ w ∈ l, mapContains (mapSet m u.unit u.power) w.unit = false := by
      intro w hw
      rw [mapContains_eq_false_iff, keyIds_mapSet, if_neg (by simp [hc])]
      intro hmem
      rcases List.mem_append.mp hmem with hm | hm
      · exact (mapContains_eq_false_iff m w.unit).mp (hdis w (List.mem_cons_of_mem _ hw)) hm
      · rw [List.mem_singleton] at hm
        exact hnd.1 (hm ▸ List.mem_map_of_mem (fun a => a.unit.id) hw)
    rw [List.foldl_cons, hstep, ih _ hnd.2 hdis']
    rw [mapGetI_mapSet]
    simp only [sumPow]
    by_cases hi : u.unit.id = i
    · have h0 : mapGetI m i = 0 := hi ▸ mapGetI_eq_zero_of_not_contains m u.unit hc
      rw [if_pos hi, if_pos hi, h0]
      omega
    · rw [if_neg hi, if_neg hi]
      omega

theorem mapGetI_toUnitMap (l : List Assoc) (h : (assocIds l).Nodup) (i : Int) :
    mapGetI (toUnitMap l) i = sumPow l i := by
  unfold toUnitMap
  rw [mapGetI_filter_ne_zero _ (keysNodup_foldl_ins l [] (by simp [KeysNodup, keyIds]))]
  simpa [mapGetI] using mapGetI_foldl_ins l [] h (fun u _ => rfl) i

theorem assocIds_toAssocs (m : UnitMap) : assocIds (toAssocs m) = keyIds m := by
  simp [assocIds, toAssocs, keyIds]

theorem sumPow_toAssocs_eq_getI (m : UnitMap) (h : KeysNodup m) (i : Int) :
    sumPow (toAssocs m) i = mapGetI m i := by
  induction m with
  | nil => rfl
  | cons p rest ih =>
    rw [KeysNodup, keyIds, List.map_cons, List.nodup_cons] at h
    simp only [toAssocs, List.map_cons, sumPow, mapGetI]
    by_cases hp : p.1.id = i
    · have hrest : mapGetI rest i = 0 :=
        mapGetI_eq_zero_of_not_mem rest i (by rw [← hp]; exact h.1)
      have hih := ih h.2
      rw [if_pos hp, if_pos hp]
      simp only [toAssocs] at hih
      omega
    · have hih := ih h.2
      rw [if_neg hp, if_neg hp]
      simp only [toAssocs] at hih
      omega

theorem foldl_ins_toAssocs (X : UnitMap) (m : UnitMap)
    (hnd : KeysNodup X) (hdis : ∀ p ∈ X, mapContains m p.1 = false) :
    (toAssocs X).foldl insAssocStep m = m ++ X := by
  induction X generalizing m with
  | nil => simp [toAssocs]
  | cons p rest ih =>
    rw [KeysNodup, keyIds, List.map_cons, List.nodup_cons] at hnd
    have hc : mapContains m p.1 = false := hdis p (List.mem_cons_self _ _)
    simp only [toAssocs, List.map_cons, List.foldl_cons]
    have hstep : insAssocStep m (Assoc.mk p.1 p.2) = m ++ [(p.1, p.2)] := by
      unfold insAssocStep
      rw [if_neg (by simp [hc])]
      exact mapSet_append m p.1 p.2 hc
    rw [hstep]
    have hdis' : ∀ q ∈ rest, mapContains (m ++ [(p.1, p.2)]) q.1 = false := by
      intro q hq
      rw [mapContains_eq_false_iff, keyIds, List.map_append]
      intro hmem
      rcases List.mem_append.mp hmem with hm | hm
      · exact (mapContains_eq_false_iff m q.1).mp (hdis q (List.mem_cons_of_mem _ hq)) hm
      · simp only [List.map_cons, List.map_nil, List.mem_singleton] at hm
        exact hnd.1 (hm ▸ List.mem_map_of_mem (fun a => a.1.id) hq)
    have hih := ih _ hnd.2 hdis'
    simp only [toAssocs] at hih
    rw [hih, List.append_assoc]
    rfl

theorem toUnitMap_toAssocs (X : UnitMap) (hnd : KeysNodup X)
    (hnz : ∀ p ∈ X, p.2 ≠ 0) : toUnitMap (toAssocs X) = X := by
  unfold toUnitMap
  rw [foldl_ins_toAssocs X [] hnd (fun p _ => rfl), List.nil_append]
  exact List.filter_eq_self.mpr (fun p hp => by simpa using hnz p hp)

theorem mapGetI_combineBase_mul (init : UnitMap) (b : BaseUnit) (i : Int) :
    mapGetI (combineBase init b opAdd "·") i =
      mapGetI init i + (if b.id = i then 1 else 0) := by
  unfold combineBase opAdd
  by_cases hc : mapContains init b = true
  · rw [if_pos hc, mapGetI_mapSet]
    by_cases hi : b.id = i
    · rw [if_pos hi, if_pos hi, hi]
    · rw [if_neg hi, if_neg hi]
      omega
  · rw [Bool.not_eq_true] at hc
    rw [if_neg (by simp [hc]), if_neg (by decide : ¬ ("·" : String) = "/"), mapGetI_mapSet]
    by_cases hi : b.id = i
    · have h0 : mapGetI init i = 0 := hi ▸ mapGetI_eq_zero_of_not_contains init b hc
      rw [if_pos hi, if_pos hi, h0]
      omega
    · rw [if_neg hi, if_neg hi]
      omega

theorem mapGetI_derivedStep_mul (m : UnitMap) (u : Assoc) (i : Int) :
    mapGetI (derivedStep opAdd "·" m u) i =
      mapGetI m i + (if u.unit.id = i then u.power else 0) := by
  unfold derivedStep opAdd
  by_cases hc : mapContains m u.unit = true
  · rw [if_pos hc, mapGetI_mapSet]
    by_cases hi : u.unit.id = i
    · rw [if_pos hi, if_pos hi, hi]
    · rw [if_neg hi, if_neg hi]
      omega
  · rw [Bool.not_eq_true] at hc
    rw [if_neg (by simp [hc]), if_neg (by decide : ¬ ("·" : String) = "/"), mapGetI_mapSet]
    by_cases hi : u.unit.id = i
    · have h0 : mapGetI m i = 0 := hi ▸ mapGetI_eq_zero_of_not_contains m u.unit hc
      rw [if_pos hi, if_pos hi, h0]
      omega
    · rw [if_neg hi, if_neg hi]
      omega

theorem mapGetI_combineDerived_mul (l : List Assoc) (m : UnitMap) (i : Int) :
    mapGetI (l.foldl (derivedStep opAdd "·") m) i = mapGetI m i + sumPow l i := by
  induction l generalizing m with
  | nil => simp [sumPow]
  | cons u l ih =>
    rw [List.foldl_cons, ih, mapGetI_derivedStep_mul]
    simp only [sumPow]
    omega

theorem mapGetI_combinedMap_mul (init : UnitMap) (other : UnitKind) (i : Int) :
    mapGetI (combinedMap init other opAdd "·") i = mapGetI init i + other.sigAt i := by
  cases other with
  | base b => simpa [UnitKind.sigAt] using mapGetI_combineBase_mul init b i
  | derived d =>
      unfold combinedMap combineDerived
      simpa [UnitKind.sigAt] using mapGetI_combineDerived_mul d.base_units init i

theorem keysNodup_derivedStep (op : Int → Int → Int) (symbol : String)
    (m : UnitMap) (u : Assoc) (h : KeysNodup m) :
    KeysNodup (derivedStep op symbol m u) := by
  unfold derivedStep
  split <;> exact keysNodup_mapSet _ _ _ h

theorem keysNodup_combineBase (init : UnitMap) (b : BaseUnit)
    (op : Int → Int → Int) (symbol : String) (h : KeysNodup init) :
    KeysNodup (combineBase init b op symbol) := by
  unfold combineBase
  split <;> exact keysNodup_mapSet _ _ _ h

theorem keysNodup_foldl_derivedStep (op : Int → Int → Int) (symbol : String)
    (l : List Assoc) (m : UnitMap) (h : KeysNodup m) :
    KeysNodup (l.foldl (derivedStep op symbol) m) := by
  induction l generalizing m with
  | nil => exact h
  | cons u l ih => exact ih _ (keysNodup_derivedStep op symbol m u h)

theorem keysNodup_combinedMap (init : UnitMap) (other : UnitKind)
    (op : Int → Int → Int) (symbol : String) (h : KeysNodup init) :
    KeysNodup (combinedMap init other op symbol) := by
  cases other with
  | base b => exact keysNodup_combineBase init b op symbol h
  | derived d => exact keysNodup_foldl_derivedStep op symbol d.base_units init h

theorem keysNodup_initMap (u : UnitKind) : KeysNodup u.initMap := by
  cases u with
  | base b => simp [UnitKind.initMap, KeysNodup, keyIds]
  | derived d => exact keysNodup_toUnitMap _

theorem mapGetI_initMap (u : UnitKind) (h : u.sigNodup) (i : Int) :
    mapGetI u.initMap i = u.sigAt i := by
  cases u with
  | base b =>
      show mapGetI [(b, 1)] i = if b.id = i then 1 else 0
      simp [mapGetI]
  | derived d => exact mapGetI_toUnitMap _ h i

theorem mapGetI_cases (m : UnitMap) (i : Int) :
    mapGetI m i = 0 ∨ ∃ p ∈ m, mapGetI m i = p.2 := by
  induction m with
  | nil => exact Or.inl rfl
  | cons q rest ih =>
    by_cases hq : q.1.id = i
    · exact Or.inr ⟨q, List.mem_cons_self _ _, by simp [mapGetI, hq]⟩
    · rcases ih with h0 | ⟨p, hp, hv⟩
      · exact Or.inl (by simp [mapGetI, hq, h0])
      · exact Or.inr ⟨p, List.mem_cons_of_mem _ hp, by simp [mapGetI, hq, hv]⟩

theorem filter_len_zero_iff (M : UnitMap) (h : KeysNodup M) :
    ((M.filter (fun p => p.2 != 0)).length = 0) ↔ (∀ i, mapGetI M i = 0) := by
  rw [List.length_eq_zero]
  constructor
  · intro hf i
    have hall : ∀ p ∈ M, p.2 = 0 := by
      intro p hp
      by_contra hz
      have hmem : p ∈ M.filter (fun p => p.2 != 0) :=
        List.mem_filter.mpr ⟨hp, by simpa using hz⟩
      rw [hf] at hmem
      cases hmem
    rcases mapGetI_cases M i with h0 | ⟨p, hp, hv⟩
    · exact h0
    · rw [hv]
      exact hall p hp
  · intro hz
    refine List.eq_nil_iff_forall_not_mem.mpr (fun p hp => ?_)
    have hpM := (List.mem_filter.mp hp).1
    have hnz : p.2 ≠ 0 := by simpa using (List.mem_filter.mp hp).2
    have hv := mapGetI_of_mem M h p hpM
    rw [hz p.1.id] at hv
    exact hnz hv.symm

theorem mapEquiv_all_aux (m1 m2 : UnitMap) (h1 : KeysNodup m1)
    (hz1 : ∀ p ∈ m1, p.2 ≠ 0)
    (hpt : ∀ i, mapGetI m1 i = mapGetI m2 i) :
    m1.all (fun p => mapContains m2 p.1 && (mapGetI m2 p.1.id == p.2)) = true := by
  rw [List.all_eq_true]
  intro p hp
  have hv : mapGetI m1 p.1.id = p.2 := mapGetI_of_mem m1 h1 p hp
  have hv2 : mapGetI m2 p.1.id = p.2 := (hpt p.1.id) ▸ hv
  have hcont : mapContains m2 p.1 = true := by
    by_contra hcf
    rw [Bool.not_eq_true] at hcf
    have h0 := mapGetI_eq_zero_of_not_contains m2 p.1 hcf
    rw [h0] at hv2
    exact hz1 p hp hv2.symm
  simp [hcont, hv2]

theorem mapEquiv_of_getI (m1 m2 : UnitMap) (h1 : KeysNodup m1) (h2 : KeysNodup m2)
    (hz1 : ∀ p ∈ m1, p.2 ≠ 0) (hz2 : ∀ p ∈ m2, p.2 ≠ 0)
    (hpt : ∀ i, mapGetI m1 i = mapGetI m2 i) : mapEquiv m1 m2 = true := by
  unfold mapEquiv
  rw [Bool.and_eq_true]
  exact ⟨mapEquiv_all_aux m1 m2 h1 hz1 hpt,
    mapEquiv_all_aux m2 m1 h2 hz2 (fun i => (hpt i).symm)⟩

theorem base_units_mulHelperUnits (self other : UnitKind) (init : UnitMap)
    (op : Int → Int → Int) (symbol : String) :
    (mulHelperUnits self other init op symbol).base_units =
      if ((combinedMap init other op symbol).filter (fun p => p.2 != 0)).length = 0 then
        ([] : List Assoc)
      else toAssocs (toUnitMap (toAssocs (combinedMap init other op symbol))) := by
  unfold mulHelperUnits
  by_cases hc : ((combinedMap init other op symbol).filter (fun p => p.2 != 0)).length = 0
  · simp only [hc, if_true, if_pos]
    rfl
  · simp only [hc, if_false, if_neg, reduceIte]
    cases self <;> cases other <;> rfl

theorem mapGetI_sig_unitMul (a b : UnitKind) (ha : a.sigNodup) (i : Int) :
    mapGetI (toUnitMap (unitMul a b).base_units) i = a.sigAt i + b.sigAt i := by
  have hM : ∀ j, mapGetI (combinedMap a.initMap b opAdd "·") j = a.sigAt j + b.sigAt j := by
    intro j
    rw [mapGetI_combinedMap_mul, mapGetI_initMap a ha]
  have hMnd : KeysNodup (combinedMap a.initMap b opAdd "·") :=
    keysNodup_combinedMap _ _ _ _ (keysNodup_initMap a)
  rw [unitMul, base_units_mulHelperUnits]
  by_cases hc : ((combinedMap a.initMap b opAdd "·").filter (fun p => p.2 != 0)).length = 0
  · rw [if_pos hc]
    have h0 := (filter_len_zero_iff _ hMnd).mp hc i
    rw [← hM i, h0]
    rfl
  · rw [if_neg hc]
    have hXnd : KeysNodup (toUnitMap (toAssocs (combinedMap a.initMap b opAdd "·"))) :=
      keysNodup_toUnitMap _
    have hXnz : ∀ p ∈ toUnitMap (toAssocs (combinedMap a.initMap b opAdd "·")), p.2 ≠ 0 :=
      fun p hp => toUnitMap_values_ne_zero _ p hp
    rw [toUnitMap_toAssocs _ hXnd hXnz]
    rw [mapGetI_toUnitMap _ (by rw [assocIds_toAssocs]; exact hMnd) i]
    rw [sumPow_toAssocs_eq_getI _ hMnd i]
    exact hM i

/-- Claim C9: multiplication of units is commutative on canonical signatures.
For any two unit operands whose stored signatures satisfy the deduplication
invariant the constructor guarantees, `a * b` and `b * a` produce DerivedUnits
whose deduplicated signatures are equal as maps, i.e. `(a*b) == (b*a)` holds
under `DerivedUnit.__eq__`. -/
theorem C9_mul_commutative (a b : UnitKind) (ha : a.sigNodup) (hb : b.sigNodup) :
    derivedEq (unitMul a b) (.derived (unitMul b a)) = .ok true := by
  show Except.ok (mapEquiv (toUnitMap (unitMul a b).base_units)
      (toUnitMap (unitMul b a).base_units)) = Except.ok true
  refine congrArg Except.ok ?_
  apply mapEquiv_of_getI
  · exact keysNodup_toUnitMap _
  · exact keysNodup_toUnitMap _
  · exact fun p hp => toUnitMap_values_ne_zero _ p hp
  · exact fun p hp => toUnitMap_values_ne_zero _ p hp
  · intro i
    rw [mapGetI_sig_unitMul a b ha i, mapGetI_sig_unitMul b a hb i]
    omega

/-- Claim C9, witness at the base unit meter and the derived unit
meter/second (both satisfy the deduplication hypothesis). -/
theorem C9_witness :
    (UnitKind.base meter).sigNodup ∧ (UnitKind.derived meterPerSecond).sigNodup ∧
    derivedEq (unitMul (.base meter) (.derived meterPerSecond))
      (.derived (unitMul (.derived meterPerSecond) (.base meter))) = .ok true :=
  ⟨by decide, by decide, C9_mul_commutative _ _ (by decide) (by decide)⟩
